import Mathlib

/-!
Shallow embedding of the text-layer cache subsystem of vue-pdf-embed:
`src/services/textLayerCache.ts` (volatile in-process store),
`src/services/indexedDbCache.ts` (persistent store backed by IndexedDB),
and `src/utils/preloadCache.ts` (preload orchestrator).

Modelling conventions:
* JS numbers that hold timestamps, counts and page numbers are embedded as
  `Nat` / `Int`; 32-bit wrap-around from JS bitwise operators is made explicit
  through `toInt32`.
* The cached `TextContent` value is opaque to the subsystem (stored and
  returned unchanged), so it is embedded as an abstract atom (`Nat`).
* A JS `Map` is embedded as an insertion-ordered association list; `Map.set`
  on an existing key updates in place, on a fresh key appends at the end,
  which matches the iteration order JS guarantees.
* Stateful methods become pure functions from an explicit state (plus the
  current time standing for `Date.now()`) to the result and the new state.
-/

namespace VuePdfEmbed

/-- The cached text-content value. The subsystem never inspects its
internals, so it is embedded as an opaque atom. -/
abbrev TextContent := Nat

/-! ### JS 32-bit hashing primitives (indexedDbCache.ts lines 505-536) -/

/-- JS `ToInt32`: reduce an integer to the range `[-2^31, 2^31)`. -/
def toInt32 (n : Int) : Int := (n + 2 ^ 31) % 2 ^ 32 - 2 ^ 31

/-- One step of the rolling hash `hash = (hash << 5) - hash + x; hash = hash & hash`
from `fastHashString` / `fastHashArrayBuffer` / `fastHashUint8Array`.
`hash << 5` wraps to 32 bits, the subtraction and addition are exact floats
(magnitudes below `2^53`), and `hash & hash` is a final `ToInt32`. -/
def jsHashStep (hash x : Int) : Int := toInt32 (toInt32 (hash * 32) - hash + x)

/-- Digit characters used by JS `Number.prototype.toString(36)`. -/
def base36DigitChar (n : Nat) : Char :=
  if n < 10 then Char.ofNat (48 + n) else Char.ofNat (87 + n)

/-- Base-36 rendering of a natural number, as produced by JS `toString(36)`. -/
def natToBase36 (n : Nat) : String :=
  if n < 36 then String.mk [base36DigitChar n]
  else natToBase36 (n / 36) ++ String.mk [base36DigitChar (n % 36)]
termination_by n
decreasing_by
  exact Nat.div_lt_self (by omega) (by omega)

/-- JS `i.toString(36)` for a (possibly negative) 32-bit integer. -/
def jsIntToString36 (i : Int) : String :=
  if i < 0 then "-" ++ natToBase36 i.natAbs else natToBase36 i.natAbs

/-- `IndexedDbCache.fastHashString` (indexedDbCache.ts lines 505-513):
rolling hash over the UTF-16 code units of the string (the sources hashed
here are JSON serialisations; code points are assumed to lie in the BMP so
that `charCodeAt` coincides with the code point). -/
def fastHashString (str : String) : String :=
  jsIntToString36 (str.data.foldl (fun h c => jsHashStep h (Int.ofNat c.toNat)) 0)

/-- Group a byte list into little-endian 32-bit words, the view produced by
`new Uint32Array(buffer)`. Callers guarantee `bytes.length % 4 = 0`. -/
def bytesToWords : List Nat → List Nat
  | b0 :: b1 :: b2 :: b3 :: rest =>
      (b0 + 256 * b1 + 65536 * b2 + 16777216 * b3) :: bytesToWords rest
  | _ => []

/-- `IndexedDbCache.fastHashArrayBuffer` (indexedDbCache.ts lines 515-525).
`new Uint32Array(buffer)` throws a `RangeError` whenever the buffer's byte
length is not a multiple of 4; that exceptional exit is made explicit with
`Except.error`. On the aligned path the code samples the first
`Math.min(view.length, 100)` words and appends `_` and the byte length. -/
def fastHashArrayBuffer (bytes : List Nat) : Except String String :=
  if bytes.length % 4 = 0 then
    let view := bytesToWords bytes
    let sample := view.take (min view.length 100)
    Except.ok
      (jsIntToString36 (sample.foldl (fun h w => jsHashStep h (Int.ofNat w)) 0)
        ++ "_" ++ toString bytes.length)
  else
    Except.error "RangeError: byte length of Uint32Array should be a multiple of 4"

/-- `IndexedDbCache.fastHashUint8Array` (indexedDbCache.ts lines 527-536):
samples the first `Math.min(array.length, 400)` bytes; never throws. -/
def fastHashUint8Array (bytes : List Nat) : String :=
  let sample := bytes.take (min bytes.length 400)
  jsIntToString36 (sample.foldl (fun h b => jsHashStep h (Int.ofNat b)) 0)
    ++ "_" ++ toString bytes.length

/-! ### Source identities and key derivation -/

/-- The `Source` union accepted by the cache layer: `null`, a URL string, a
raw `ArrayBuffer`, a `Uint8Array`, an already-open `PDFDocumentProxy`
(recognised by a numeric `numPages` field, carrying the optional
`fingerprints` array, `fingerprint` string and `_pdfInfo.fingerprints`
array inspected by the key deriver), or any other object, represented by
its `JSON.stringify` serialisation. -/
inductive Source where
  | null
  | str (s : String)
  | arrayBuffer (bytes : List Nat)
  | uint8Array (bytes : List Nat)
  | docProxy (numPages : Nat) (fingerprints : Option (List (Option String)))
      (fingerprint : Option String) (pdfInfoFingerprints : Option (List (Option String)))
  | obj (serialized : String)
deriving Repr, DecidableEq

/-- Fingerprint extraction for a document proxy
(indexedDbCache.ts lines 480-495): first `source.fingerprints[0] || 'unknown'`
when a `fingerprints` array exists (a missing or falsy first element — e.g.
the empty string — falls back to `unknown`), else a string-typed
`source.fingerprint` verbatim, else `source._pdfInfo.fingerprints?.[0] || 'unknown'`,
else `unknown`. -/
def docProxyFingerprint (fingerprints : Option (List (Option String)))
    (fingerprint : Option String)
    (pdfInfoFingerprints : Option (List (Option String))) : String :=
  match fingerprints with
  | some l =>
    match l.head? with
    | some (some s) => if s = "" then "unknown" else s
    | _ => "unknown"
  | none =>
    match fingerprint with
    | some s => s
    | none =>
      match pdfInfoFingerprints with
      | some l =>
        match l.head? with
        | some (some s) => if s = "" then "unknown" else s
        | _ => "unknown"
      | none => "unknown"

/-- `IndexedDbCache.generateCacheKeySync` (indexedDbCache.ts lines 463-503):
source-type dispatch producing the source key, concatenated with `:` and the
page number. The `ArrayBuffer` branch can throw (see `fastHashArrayBuffer`),
which the `Except` monad records; every other branch is total. -/
def generateCacheKeySync (source : Source) (pageNumber : Nat) : Except String String :=
  match source with
  | Source.null => Except.ok ("null" ++ ":" ++ toString pageNumber)
  | Source.str s => Except.ok (s ++ ":" ++ toString pageNumber)
  | Source.arrayBuffer bytes =>
      (fastHashArrayBuffer bytes).map (fun k => k ++ ":" ++ toString pageNumber)
  | Source.uint8Array bytes =>
      Except.ok (fastHashUint8Array bytes ++ ":" ++ toString pageNumber)
  | Source.docProxy _ fps fp pifps =>
      Except.ok ("doc:" ++ docProxyFingerprint fps fp pifps ++ ":" ++ toString pageNumber)
  | Source.obj serialized =>
      Except.ok (fastHashString serialized ++ ":" ++ toString pageNumber)

/-! ### Volatile store (textLayerCache.ts) -/

/-- A volatile cache entry (textLayerCache.ts lines 22-26). -/
structure CacheEntry where
  content : TextContent
  lastAccessed : Nat
  accessCount : Nat
deriving Repr, DecidableEq

/-- The insertion-ordered association list embedding the JS `Map`. -/
abbrev VMap := List (String × CacheEntry)

/-- JS `map.get(k)`: the value stored at the unique occurrence of `k`. -/
def jsMapGet : VMap → String → Option CacheEntry
  | [], _ => none
  | p :: rest, k => if p.1 = k then some p.2 else jsMapGet rest k

/-- JS `map.set(k, v)`: update in place when the key exists, append otherwise. -/
def jsMapSet : VMap → String → CacheEntry → VMap
  | [], k, v => [(k, v)]
  | p :: rest, k, v => if p.1 = k then (k, v) :: rest else p :: jsMapSet rest k v

/-- JS `map.delete(k)`: remove the (unique) occurrence of `k`. -/
def jsMapDelete : VMap → String → VMap
  | [], _ => []
  | p :: rest, k => if p.1 = k then rest else p :: jsMapDelete rest k

/-- One iteration of the `evictLRU` scan (textLayerCache.ts lines 108-113):
the accumulator holds `(oldestKey, oldestTime)`, with `none` standing for
the initial `('', Infinity)` state that any entry beats. -/
def oldestStep (acc : Option (String × Nat)) (p : String × CacheEntry) :
    Option (String × Nat) :=
  match acc with
  | none => some (p.1, p.2.lastAccessed)
  | some (k, t) => if p.2.lastAccessed < t then some (p.1, p.2.lastAccessed) else some (k, t)

/-- The full `evictLRU` scan: first entry with a strictly smaller
`lastAccessed` wins, so ties keep the earliest entry in iteration order. -/
def findOldest (m : VMap) : Option (String × Nat) := m.foldl oldestStep none

/-- `TextLayerCache.evictLRU` (textLayerCache.ts lines 104-118): delete the
scanned oldest key, unless the scan left `oldestKey` falsy (empty map, or an
entry keyed by the empty string). -/
def evictLRU (m : VMap) : VMap :=
  match findOldest m with
  | none => m
  | some (k, _) => if k = "" then m else jsMapDelete m k

/-- The `TextLayerCache` state (textLayerCache.ts lines 28-36). -/
structure TextLayerCache where
  cache : VMap
  maxSize : Nat
  hitCount : Nat
  missCount : Nat
deriving Repr, DecidableEq

/-- A freshly constructed `TextLayerCache` with the given `maxSize`. -/
def TextLayerCache.empty (maxSize : Nat) : TextLayerCache :=
  { cache := [], maxSize := maxSize, hitCount := 0, missCount := 0 }

/-- `TextLayerCache.get` (textLayerCache.ts lines 38-51), parameterised by the
derived cache key and the current `Date.now()`. A hit mutates the entry in
place (modelled by `jsMapSet` at the same key) and bumps `hitCount`; a miss
only bumps `missCount`. -/
def TextLayerCache.get (c : TextLayerCache) (now : Nat) (key : String) :
    Option TextContent × TextLayerCache :=
  match jsMapGet c.cache key with
  | some e =>
      (some e.content,
        { c with
            cache := jsMapSet c.cache key
              { e with lastAccessed := now, accessCount := e.accessCount + 1 },
            hitCount := c.hitCount + 1 })
  | none => (none, { c with missCount := c.missCount + 1 })

/-- `TextLayerCache.set` (textLayerCache.ts lines 53-70): evict the LRU entry
when at capacity and the key is fresh, then store the entry with
`lastAccessed = now` and `accessCount = 1`. -/
def TextLayerCache.set (c : TextLayerCache) (now : Nat) (key : String)
    (content : TextContent) : TextLayerCache :=
  let cache1 :=
    if c.maxSize ≤ c.cache.length ∧ jsMapGet c.cache key = none then evictLRU c.cache
    else c.cache
  { c with cache := jsMapSet cache1 key { content := content, lastAccessed := now, accessCount := 1 } }

/-- `TextLayerCache.clear` (textLayerCache.ts lines 86-90). -/
def TextLayerCache.clear (c : TextLayerCache) : TextLayerCache :=
  { c with cache := [], hitCount := 0, missCount := 0 }

/-- The `CacheStats` snapshot (textLayerCache.ts lines 4-11); the JS float
division for `hitRate` is embedded as exact rational division. -/
structure CacheStats where
  size : Nat
  maxSize : Nat
  hitRate : Rat
  totalRequests : Nat
  hitCount : Nat
  missCount : Nat
deriving Repr, DecidableEq

/-- `TextLayerCache.getStats` (textLayerCache.ts lines 92-102). -/
def TextLayerCache.getStats (c : TextLayerCache) : CacheStats :=
  { size := c.cache.length
    maxSize := c.maxSize
    hitRate :=
      if 0 < c.hitCount + c.missCount then (c.hitCount : Rat) / ((c.hitCount + c.missCount : Nat) : Rat)
      else 0
    totalRequests := c.hitCount + c.missCount
    hitCount := c.hitCount
    missCount := c.missCount }

/-- An operation against the volatile store, already addressed by its derived
cache key (every key produced by `generateCacheKey` has the shape
`sourceKey:page`, hence is nonempty — see `generateCacheKeySync_ne_empty`).
`keyOk` records exactly that nonemptiness. -/
inductive VOp where
  | get (now : Nat) (key : String)
  | set (now : Nat) (key : String) (content : TextContent)
  | clear
deriving Repr, DecidableEq

/-- Keys addressed by an operation are nonempty (true of all derived keys). -/
def VOp.keyOk : VOp → Bool
  | VOp.get _ k => !(k == "")
  | VOp.set _ k _ => !(k == "")
  | VOp.clear => true

/-- Apply one operation to the volatile store, keeping only the state. -/
def applyVOp (c : TextLayerCache) : VOp → TextLayerCache
  | VOp.get now k => (c.get now k).2
  | VOp.set now k v => c.set now k v
  | VOp.clear => c.clear

/-- Run a sequence of operations against the volatile store. -/
def runVOps (c : TextLayerCache) (ops : List VOp) : TextLayerCache :=
  ops.foldl applyVOp c

/-! ### Persistent store (indexedDbCache.ts)

The sequential model below interprets one store method as an atomic state
transformation in which every backing-engine request succeeds; the object
store is an association list keyed by the cache key. The separate
`idbGetCallOutcome` model captures how the promise returned by `get`
behaves when an engine request fails. -/

/-- A persistent cache record (indexedDbCache.ts lines 5-12). -/
structure IdbEntry where
  key : String
  content : TextContent
  lastAccessed : Nat
  accessCount : Nat
  createdAt : Nat
  expiresAt : Nat
deriving Repr, DecidableEq

/-- Lookup by primary key in the object store. -/
def idbFind : List IdbEntry → String → Option IdbEntry
  | [], _ => none
  | e :: rest, k => if e.key = k then some e else idbFind rest k

/-- `store.put(entry)`: upsert by primary key. -/
def idbPut : List IdbEntry → IdbEntry → List IdbEntry
  | [], e => [e]
  | x :: rest, e => if x.key = e.key then e :: rest else x :: idbPut rest e

/-- `store.delete(k)`: remove the record with primary key `k`. -/
def idbDelete : List IdbEntry → String → List IdbEntry
  | [], _ => []
  | x :: rest, k => if x.key = k then rest else x :: idbDelete rest k

/-- Iteration order of the `lastAccessed` secondary index: ascending
`lastAccessed`, ties resolved by ascending primary key. -/
def idbOlder (a b : IdbEntry) : Prop :=
  a.lastAccessed < b.lastAccessed ∨ (a.lastAccessed = b.lastAccessed ∧ a.key < b.key)

instance : DecidablePred fun p : IdbEntry × IdbEntry => idbOlder p.1 p.2 := fun p => by
  unfold idbOlder; infer_instance

instance (a b : IdbEntry) : Decidable (idbOlder a b) := by
  unfold idbOlder; infer_instance

/-- One comparison step when scanning for the `lastAccessed`-index minimum. -/
def idbOldestStep (acc : Option IdbEntry) (e : IdbEntry) : Option IdbEntry :=
  match acc with
  | none => some e
  | some m => if idbOlder e m then some e else some m

/-- The first record in `lastAccessed`-index order: the cursor's start. -/
def idbFindOldest (s : List IdbEntry) : Option IdbEntry :=
  s.foldl idbOldestStep none

/-- `IndexedDbCache.evictOldest(count)` (indexedDbCache.ts lines 324-352):
the cursor over the `lastAccessed` index deletes the first `count` records
in index order, i.e. repeatedly removes the index-least record. -/
def evictOldestBatch : List IdbEntry → Nat → List IdbEntry
  | s, 0 => s
  | s, n + 1 =>
    match idbFindOldest s with
    | none => s
    | some e => evictOldestBatch (idbDelete s e.key) n

/-- The `IndexedDbCache` state (indexedDbCache.ts lines 21-41) after a
successful initialisation: the object store contents plus the in-memory
counters and the pending deferred-operation tags. Connection fields
(`dbName`, `dbVersion`, `db`) are omitted: they do not affect the semantics
of an initialised store. -/
structure IndexedDbCache where
  store : List IdbEntry
  maxEntries : Nat
  expirationMs : Nat
  hitCount : Nat
  missCount : Nat
  cachedCount : Nat
  deferredOperations : List String
deriving Repr, DecidableEq

/-- A freshly initialised, empty persistent store. -/
def IndexedDbCache.empty (maxEntries expirationMs : Nat) : IndexedDbCache :=
  { store := [], maxEntries := maxEntries, expirationMs := expirationMs,
    hitCount := 0, missCount := 0, cachedCount := 0, deferredOperations := [] }

/-- `Set.add` on the deferred-operation tags (a JS `Set<string>`). -/
def addDeferred (l : List String) (x : String) : List String :=
  if x ∈ l then l else l ++ [x]

/-- `IndexedDbCache.get` (indexedDbCache.ts lines 43-81) on the success path,
parameterised by the derived key and `Date.now()`. A fresh entry whose
`expiresAt` lies in the future is a hit and schedules a deferred access-stat
update; a found-but-expired entry is a miss and schedules a deferred removal
(the record itself is not touched); an absent key is a plain miss. -/
def IndexedDbCache.get (c : IndexedDbCache) (now : Nat) (key : String) :
    Option TextContent × IndexedDbCache :=
  match idbFind c.store key with
  | some e =>
    if now < e.expiresAt then
      (some e.content,
        { c with hitCount := c.hitCount + 1,
                 deferredOperations := addDeferred c.deferredOperations ("access:" ++ e.key) })
    else
      (none,
        { c with missCount := c.missCount + 1,
                 deferredOperations := addDeferred c.deferredOperations ("remove:" ++ e.key) })
  | none => (none, { c with missCount := c.missCount + 1 })

/-- `IndexedDbCache.set` (indexedDbCache.ts lines 83-130) together with
`evictIfNeeded` (lines 306-322): when the authoritative count has reached
`maxEntries`, evict `Math.floor(maxEntries * 0.1)` records — `maxEntries / 10`
in exact arithmetic — in `lastAccessed`-index order, then upsert the entry
with `accessCount = 1`, `createdAt = now` and `expiresAt = now + expirationMs`,
bumping `cachedCount` only for a fresh key. -/
def IndexedDbCache.set (c : IndexedDbCache) (now : Nat) (key : String)
    (content : TextContent) : IndexedDbCache :=
  let entry : IdbEntry :=
    { key := key, content := content, lastAccessed := now, accessCount := 1,
      createdAt := now, expiresAt := now + c.expirationMs }
  let c1 :=
    if c.maxEntries ≤ c.store.length then
      let evicted := evictOldestBatch c.store (c.maxEntries / 10)
      { c with store := evicted,
               cachedCount := c.cachedCount - (c.store.length - evicted.length) }
    else c
  let isNew := idbFind c1.store key = none
  { c1 with store := idbPut c1.store entry,
            cachedCount := if isNew then c1.cachedCount + 1 else c1.cachedCount }

/-- `IndexedDbCache.getStats` (indexedDbCache.ts lines 163-173): the fast
snapshot served from the in-memory `cachedCount`. -/
def IndexedDbCache.getStats (c : IndexedDbCache) : CacheStats :=
  { size := c.cachedCount
    maxSize := c.maxEntries
    hitRate :=
      if 0 < c.hitCount + c.missCount then (c.hitCount : Rat) / ((c.hitCount + c.missCount : Nat) : Rat)
      else 0
    totalRequests := c.hitCount + c.missCount
    hitCount := c.hitCount
    missCount := c.missCount }

/-- `IndexedDbCache.getStatsAsync` (indexedDbCache.ts lines 175-205) on the
success path: identical to `getStats` except that `size` is the
authoritative `store.count()` result. -/
def IndexedDbCache.getStatsAsync (c : IndexedDbCache) : CacheStats :=
  { c.getStats with size := c.store.length }

/-- `IndexedDbCache.cleanup` (indexedDbCache.ts lines 218-251) on the success
path: remove every record with `expiresAt < now`, return the removed count. -/
def IndexedDbCache.cleanup (c : IndexedDbCache) (now : Nat) : Nat × IndexedDbCache :=
  let removed := c.store.filter (fun e => decide (e.expiresAt < now))
  let kept := c.store.filter (fun e => !(decide (e.expiresAt < now)))
  (removed.length,
    { c with store := kept, cachedCount := c.cachedCount - removed.length })

/-! ### Failure semantics of the promise returned by `IndexedDbCache.get`

Each operation wraps its body in `try { ... } catch (error) { console.warn(...);
return safeDefault }` and ends with `return new Promise((resolve, reject) => ...)`.
In JS an async function resolves its outer promise with the returned promise
AFTER the function body (and hence the `try` block) has exited; only
`return await promise` would route a rejection through the `catch`. The
`catch` therefore absorbs exceptions thrown before the promise is built —
initialisation failures (`ensureInitialized`), a missing `db`, synchronous
`transaction()` errors — but a backing-engine request failure fires
`request.onerror`, which calls `reject(request.error)` on the returned
promise: that rejection reaches the caller unhandled. -/

/-- Outcome of a JS promise: resolved with a value or rejected with an error. -/
inductive JsResult (α : Type) where
  | resolved (value : α)
  | rejected (error : String)
deriving Repr, DecidableEq

/-- The engine interaction of one `IndexedDbCache.get` call: whether
initialisation (or anything before the returned promise) threw, and the
outcome of the `store.get(key)` request. -/
structure EngineGetRun where
  initError : Option String
  requestResult : Except String (Option IdbEntry)
deriving Repr

/-- The settlement of the promise a caller of `IndexedDbCache.get`
(indexedDbCache.ts lines 43-81) receives, as a function of the engine
outcomes: pre-promise throws are caught and degrade to `resolved none`,
a successful request resolves per the expiry check, and a failed request
(`request.onerror`) rejects the promise with `request.error` — the
surrounding `try`/`catch` does not intercept it because the promise is
returned without `await`. -/
def idbGetCallOutcome (run : EngineGetRun) (now : Nat) : JsResult (Option TextContent) :=
  match run.initError with
  | some _ => JsResult.resolved none
  | none =>
    match run.requestResult with
    | Except.error e => JsResult.rejected e
    | Except.ok (some entry) =>
        JsResult.resolved (if now < entry.expiresAt then some entry.content else none)
    | Except.ok none => JsResult.resolved none

/-! ### Preload orchestrator (preloadCache.ts) -/

/-- A JS page-number argument: `isInt` records `Number.isInteger(page)` and
`val` the numeric value used in comparisons (for a non-integer argument only
`isInt` matters: validation rejects it before any comparison). -/
structure JsNum where
  isInt : Bool
  val : Int
deriving Repr, DecidableEq

/-- The validation predicate of preloadCache.ts lines 61-63:
`!Number.isInteger(page) || page < 1`. -/
def badPage (p : JsNum) : Bool := !p.isInt || decide (p.val < 1)

/-- The source argument of a preload call, as the code discriminates it:
JS-falsy (`!source`), an already-open document proxy (an object with a
`numPages` field, carrying that page count), or any other truthy source that
must go through `getDocument`. -/
inductive PreSource where
  | absent
  | docProxy (numPages : Nat)
  | other
deriving Repr, DecidableEq

/-- The error conditions `preloadTextLayerCache` can throw. The first three
are the fail-fast validation errors (preloadCache.ts lines 52-68), carrying
what their messages name; `loadFailure` is the wrapper
`Failed to load PDF document: ...` around an acquisition error or timeout
(lines 179-184). -/
inductive PreloadErr where
  | sourceRequired
  | emptyPages
  | invalidPageNumbers (offending : List Int)
  | loadFailure (message : String)
deriving Repr, DecidableEq

/-- The validation errors: malformed input rejected before any work. -/
def PreloadErr.isInvalidArgument : PreloadErr → Bool
  | PreloadErr.sourceRequired => true
  | PreloadErr.emptyPages => true
  | PreloadErr.invalidPageNumbers _ => true
  | PreloadErr.loadFailure _ => false

/-- The `PreloadResult` record (preloadCache.ts lines 5-11); `errors` is
`none` when the JS field is left `undefined`. -/
structure PreloadResult where
  success : Bool
  cached : Nat
  failed : Nat
  totalPages : Nat
  errors : Option (List (Int × String))
deriving Repr, DecidableEq

/-- An I/O step the orchestrator performs, in order: document acquisition,
a per-page cache probe (`textLayerCache.get`), a per-page text extraction
(`doc.getPage` + `page.getTextContent`, whose success also writes the cache). -/
inductive Effect where
  | acquireDoc
  | cacheProbe (page : Int)
  | extractPage (page : Int)
deriving Repr, DecidableEq

/-- Step (1) of the procedure (preloadCache.ts lines 76-97): an already-open
proxy is used directly, any other source is resolved through `getDocument`
racing the timeout; `acquire` is the outcome of that race (page count or
error message, a timeout being the error `Document loading timeout`). -/
def resolveDoc (src : PreSource) (acquire : Except String Nat) :
    Except String Nat × List Effect :=
  match src with
  | PreSource.docProxy n => (Except.ok n, [])
  | _ => (acquire, [Effect.acquireDoc])

/-- `preloadTextLayerCache` (preloadCache.ts lines 45-185), as a pure function
of the source shape, the acquisition outcome, the cache-probe oracle
(`probe p` is what `textLayerCache.get` returns for page `p`), the extraction
oracle (`extract p` the settled outcome of fetching page `p`), the requested
pages and `skipCached`. Returns the thrown error or the `PreloadResult`,
paired with the trace of I/O effects in program order. The concurrent
`Promise.allSettled` block is sequentialised; the final counts only depend
on the multiset of per-page outcomes. -/
def preloadTextLayerCache (src : PreSource) (acquire : Except String Nat)
    (probe : Int → Option TextContent) (extract : Int → Except String TextContent)
    (pages : List JsNum) (skipCached : Bool) :
    Except PreloadErr PreloadResult × List Effect :=
  if src = PreSource.absent then (Except.error PreloadErr.sourceRequired, [])
  else if pages.isEmpty then (Except.error PreloadErr.emptyPages, [])
  else
    let invalidPages := pages.filter badPage
    if invalidPages.isEmpty then
      match resolveDoc src acquire with
      | (Except.error e, acqEffs) => (Except.error (PreloadErr.loadFailure e), acqEffs)
      | (Except.ok maxPages, acqEffs) =>
        let validPages := pages.filter (fun p => decide (p.val ≤ (maxPages : Int)))
        let probeEffs :=
          if skipCached then validPages.map (fun p => Effect.cacheProbe p.val) else []
        let pagesToLoad :=
          if skipCached then validPages.filter (fun p => (probe p.val).isNone)
          else validPages
        if pagesToLoad.isEmpty then
          (Except.ok
            { success := true, cached := validPages.length, failed := 0,
              totalPages := pages.length, errors := none },
            acqEffs ++ probeEffs)
        else
          let extractEffs := pagesToLoad.map (fun p => Effect.extractPage p.val)
          let successful := (pagesToLoad.filter (fun p => (extract p.val).isOk)).length
          let failedCount := (pagesToLoad.filter (fun p => !(extract p.val).isOk)).length
          let errs := pagesToLoad.filterMap (fun p =>
            match extract p.val with
            | Except.error e => some (p.val, e)
            | Except.ok _ => none)
          (Except.ok
            { success := failedCount == 0
              cached := successful +
                (if skipCached then validPages.length - pagesToLoad.length else 0)
              failed := failedCount
              totalPages := pages.length
              errors := if errs.isEmpty then none else some errs },
            acqEffs ++ probeEffs ++ extractEffs)
    else (Except.error (PreloadErr.invalidPageNumbers (invalidPages.map (fun p => p.val))), [])

/-- The volatile entry written by `set(key, content)` at time `now`
(textLayerCache.ts lines 65-69). -/
def toVEntry (x : String × Nat × TextContent) : String × CacheEntry :=
  (x.1, { content := x.2.2, lastAccessed := x.2.1, accessCount := 1 })

/-- Run a sequence of volatile `set` calls, each given as
`(key, time, content)`. -/
def setRun (c : TextLayerCache) (l : List (String × Nat × TextContent)) : TextLayerCache :=
  l.foldl (fun c x => c.set x.2.1 x.1 x.2.2) c

/-- Wellformedness of the volatile mapping: keys are pairwise distinct (a JS
`Map` invariant) and nonempty (every derived cache key has the shape
`sourceKey:page`). -/
def goodKeys (m : VMap) : Prop :=
  (m.map Prod.fst).Nodup ∧ ∀ p ∈ m, p.1 ≠ ""

/-- The volatile-store invariant at volatile maximum `N`. -/
def VInv (N : Nat) (c : TextLayerCache) : Prop :=
  goodKeys c.cache ∧ c.maxSize = N ∧ c.cache.length ≤ N

/-! ### Concrete runs used by counterexamples -/

/-- Six `set` calls with distinct keys against a persistent store configured
with `maxEntries = 5`: the sixth call finds the count at the maximum, but the
eviction batch `Math.floor(5 * 0.1) = 0` removes nothing. -/
def idbSmallMaxRun : IndexedDbCache :=
  ((((((IndexedDbCache.empty 5 1000).set 1 "a:1" 0).set 2 "b:1" 0).set 3 "c:1" 0).set
    4 "d:1" 0).set 5 "e:1" 0).set 6 "f:1" 0

/-! ### Supporting lemmas -/

theorem jsMapGet_jsMapSet_self (m : VMap) (k : String) (v : CacheEntry) :
    jsMapGet (jsMapSet m k v) k = some v := by
  induction m with
  | nil => simp [jsMapSet, jsMapGet]
  | cons p rest ih =>
    by_cases h : p.1 = k
    · simp [jsMapSet, h, jsMapGet]
    · simp [jsMapSet, h, jsMapGet, ih]

theorem idbFind_idbPut_self (s : List IdbEntry) (e : IdbEntry) :
    idbFind (idbPut s e) e.key = some e := by
  induction s with
  | nil => simp [idbPut, idbFind]
  | cons x rest ih =>
    by_cases h : x.key = e.key
    · simp [idbPut, h, idbFind]
    · simp [idbPut, h, idbFind, ih]

theorem idbFind_key (s : List IdbEntry) (k : String) (e : IdbEntry)
    (h : idbFind s k = some e) : e.key = k := by
  induction s with
  | nil => simp [idbFind] at h
  | cons x rest ih =>
    rw [idbFind] at h
    by_cases hx : x.key = k
    · rw [if_pos hx] at h
      injection h with h2
      exact h2 ▸ hx
    · rw [if_neg hx] at h
      exact ih h

theorem mem_addDeferred (l : List String) (x : String) : x ∈ addDeferred l x := by
  unfold addDeferred
  by_cases h : x ∈ l <;> simp [h]

/-! ### Claim theorems -/

/-- C1: the claim says a failing backing-engine request never makes the
operation's promise reject — `get` should resolve to absent with a logged
warning. In the code, however, each operation returns the engine-bound
promise from inside `try` without `await`, so the `reject(request.error)`
fired by `request.onerror` bypasses the `catch` and the caller's promise
rejects with the engine error. This evaluates `IndexedDbCache.get` at such
a run: initialisation succeeded, the `store.get` request failed. -/
theorem idb_get_request_error_rejects (e : String) (now : Nat) :
    idbGetCallOutcome { initError := none, requestResult := Except.error e } now =
      JsResult.rejected e := rfl

/-- C2: the claim says key derivation returns a string and never throws for
an `ArrayBuffer` of any byte length. `generateCacheKeySync` dispatches an
`ArrayBuffer` to `fastHashArrayBuffer`, whose `new Uint32Array(buffer)`
throws a `RangeError` whenever the byte length is not a multiple of 4 —
here, a 3-byte buffer. -/
theorem generateCacheKeySync_throws_on_unaligned_buffer :
    generateCacheKeySync (Source.arrayBuffer [1, 2, 3]) 1 =
      Except.error "RangeError: byte length of Uint32Array should be a multiple of 4" := rfl

/-- C6: a persistent-store `get` that finds an entry whose `expiresAt` lies
in the past resolves to absent and counts a miss; the record itself is left
physically in the store, with its removal merely queued as a deferred
operation, and the hit counter is untouched. -/
theorem idb_get_expired_is_miss (c : IndexedDbCache) (now : Nat) (key : String)
    (e : IdbEntry) (hfind : idbFind c.store key = some e)
    (hexp : e.expiresAt < now) :
    (c.get now key).1 = none ∧
    (c.get now key).2.missCount = c.missCount + 1 ∧
    (c.get now key).2.hitCount = c.hitCount ∧
    (c.get now key).2.store = c.store ∧
    ("remove:" ++ key) ∈ (c.get now key).2.deferredOperations := by
  have hkey : e.key = key := idbFind_key _ _ _ hfind
  have hnot : ¬ now < e.expiresAt := by omega
  refine ⟨?_, ?_, ?_, ?_, ?_⟩ <;>
    simp [IndexedDbCache.get, hfind, hnot, hkey, mem_addDeferred]

/-- C6 witness: the theorem applied to a one-entry store at a time past the
entry's expiry. -/
theorem idb_get_expired_is_miss_witness :
    (({ store := [{ key := "u:1", content := 9, lastAccessed := 1, accessCount := 1,
                    createdAt := 1, expiresAt := 5 }],
        maxEntries := 1000, expirationMs := 4, hitCount := 0, missCount := 0,
        cachedCount := 1, deferredOperations := [] } : IndexedDbCache).get 6 "u:1").1 = none ∧
    (({ store := [{ key := "u:1", content := 9, lastAccessed := 1, accessCount := 1,
                    createdAt := 1, expiresAt := 5 }],
        maxEntries := 1000, expirationMs := 4, hitCount := 0, missCount := 0,
        cachedCount := 1, deferredOperations := [] } : IndexedDbCache).get 6 "u:1").2.missCount = 0 + 1 ∧
    (({ store := [{ key := "u:1", content := 9, lastAccessed := 1, accessCount := 1,
                    createdAt := 1, expiresAt := 5 }],
        maxEntries := 1000, expirationMs := 4, hitCount := 0, missCount := 0,
        cachedCount := 1, deferredOperations := [] } : IndexedDbCache).get 6 "u:1").2.hitCount = 0 ∧
    (({ store := [{ key := "u:1", content := 9, lastAccessed := 1, accessCount := 1,
                    createdAt := 1, expiresAt := 5 }],
        maxEntries := 1000, expirationMs := 4, hitCount := 0, missCount := 0,
        cachedCount := 1, deferredOperations := [] } : IndexedDbCache).get 6 "u:1").2.store =
      [{ key := "u:1", content := 9, lastAccessed := 1, accessCount := 1,
         createdAt := 1, expiresAt := 5 }] ∧
    ("remove:" ++ "u:1") ∈
      (({ store := [{ key := "u:1", content := 9, lastAccessed := 1, accessCount := 1,
                      createdAt := 1, expiresAt := 5 }],
          maxEntries := 1000, expirationMs := 4, hitCount := 0, missCount := 0,
          cachedCount := 1, deferredOperations := [] } : IndexedDbCache).get 6 "u:1").2.deferredOperations :=
  idb_get_expired_is_miss _ 6 "u:1"
    { key := "u:1", content := 9, lastAccessed := 1, accessCount := 1,
      createdAt := 1, expiresAt := 5 } (by decide) (by decide)

/-- C9: a `set` on a key that already holds an entry overwrites it with
`accessCount` reset to 1 in both stores; in the persistent store the new
record's `createdAt` is the write time and `expiresAt` the write time plus
the configured expiration window. -/
theorem set_overwrite_resets_entry (now : Nat) (key : String) (content : TextContent)
    (c : TextLayerCache) (e : CacheEntry) (hv : jsMapGet c.cache key = some e)
    (pc : IndexedDbCache) (pe : IdbEntry) (_hp : idbFind pc.store key = some pe) :
    jsMapGet (c.set now key content).cache key =
      some { content := content, lastAccessed := now, accessCount := 1 } ∧
    idbFind (pc.set now key content).store key =
      some { key := key, content := content, lastAccessed := now, accessCount := 1,
             createdAt := now, expiresAt := now + pc.expirationMs } := by
  constructor
  · simp [TextLayerCache.set, hv, jsMapGet_jsMapSet_self]
  · show idbFind (idbPut _ _) key = _
    exact idbFind_idbPut_self ..

/-- C9 witness: overwriting the single entry of each store. -/
theorem set_overwrite_resets_entry_witness :
    jsMapGet (({ cache := [("k:1", { content := 3, lastAccessed := 1, accessCount := 7 })],
                 maxSize := 2, hitCount := 0, missCount := 0 } : TextLayerCache).set 9 "k:1" 4).cache "k:1" =
      some { content := 4, lastAccessed := 9, accessCount := 1 } ∧
    idbFind (({ store := [{ key := "k:1", content := 3, lastAccessed := 1, accessCount := 7,
                            createdAt := 1, expiresAt := 100 }],
                maxEntries := 1000, expirationMs := 50, hitCount := 0, missCount := 0,
                cachedCount := 1, deferredOperations := [] } : IndexedDbCache).set 9 "k:1" 4).store "k:1" =
      some { key := "k:1", content := 4, lastAccessed := 9, accessCount := 1,
             createdAt := 9, expiresAt := 9 + 50 } :=
  set_overwrite_resets_entry 9 "k:1" 4 _
    { content := 3, lastAccessed := 1, accessCount := 7 } (by decide) _
    { key := "k:1", content := 3, lastAccessed := 1, accessCount := 7,
      createdAt := 1, expiresAt := 100 } (by decide)

/-- C10: a volatile-store `get` that misses leaves the mapping, every entry,
and the hit counter untouched; the one and only state change is the miss
counter increasing by one — stated as an equality with the record update
that changes nothing but `missCount`. -/
theorem volatile_get_miss_frame (c : TextLayerCache) (now : Nat) (key : String)
    (h : jsMapGet c.cache key = none) :
    c.get now key = (none, { c with missCount := c.missCount + 1 }) := by
  simp [TextLayerCache.get, h]

/-- C10 witness: a miss on a store holding an unrelated entry. -/
theorem volatile_get_miss_frame_witness :
    ({ cache := [("a:1", { content := 5, lastAccessed := 2, accessCount := 1 })],
       maxSize := 3, hitCount := 4, missCount := 6 } : TextLayerCache).get 9 "b:1" =
      (none, { cache := [("a:1", { content := 5, lastAccessed := 2, accessCount := 1 })],
               maxSize := 3, hitCount := 4, missCount := 6 + 1 }) :=
  volatile_get_miss_frame _ 9 "b:1" (by decide)

theorem idbOldest_foldl_spec (s : List IdbEntry) : ∀ m : IdbEntry,
    ∃ e, s.foldl idbOldestStep (some m) = some e ∧ (e = m ∨ e ∈ s) := by
  induction s with
  | nil => exact fun m => ⟨m, rfl, Or.inl rfl⟩
  | cons x rest ih =>
    intro m
    by_cases hx : idbOlder x m
    · obtain ⟨e, he, hmem⟩ := ih x
      refine ⟨e, ?_, ?_⟩
      · simpa [List.foldl_cons, idbOldestStep, hx] using he
      · rcases hmem with h | h
        · exact Or.inr (h ▸ List.mem_cons_self x rest)
        · exact Or.inr (List.mem_cons_of_mem x h)
    · obtain ⟨e, he, hmem⟩ := ih m
      refine ⟨e, ?_, ?_⟩
      · simpa [List.foldl_cons, idbOldestStep, hx] using he
      · rcases hmem with h | h
        · exact Or.inl h
        · exact Or.inr (List.mem_cons_of_mem x h)

theorem idbFindOldest_spec (s : List IdbEntry) (hne : s ≠ []) :
    ∃ e, idbFindOldest s = some e ∧ e ∈ s := by
  match s, hne with
  | x :: rest, _ =>
    obtain ⟨e, he, hmem⟩ := idbOldest_foldl_spec rest x
    refine ⟨e, ?_, ?_⟩
    · simpa [idbFindOldest, List.foldl_cons, idbOldestStep] using he
    · rcases hmem with h | h
      · exact h ▸ List.mem_cons_self x rest
      · exact List.mem_cons_of_mem x h

theorem idbDelete_length_of_mem (s : List IdbEntry) (k : String)
    (h : ∃ e ∈ s, e.key = k) : (idbDelete s k).length + 1 = s.length := by
  induction s with
  | nil => simp at h
  | cons x rest ih =>
    by_cases hx : x.key = k
    · simp [idbDelete, hx]
    · obtain ⟨e, hmem, hek⟩ := h
      have hrest : e ∈ rest := by
        rcases List.mem_cons.mp hmem with h1 | h1
        · exact absurd (h1 ▸ hek) hx
        · exact h1
      simp only [idbDelete, if_neg hx, List.length_cons]
      rw [← ih ⟨e, hrest, hek⟩]

theorem evictOldestBatch_length (n : Nat) :
    ∀ s : List IdbEntry, n ≤ s.length →
      (evictOldestBatch s n).length = s.length - n := by
  induction n with
  | zero => intro s _; simp [evictOldestBatch]
  | succ n ih =>
    intro s hn
    have hne : s ≠ [] := by
      intro h
      rw [h] at hn
      simp at hn
    obtain ⟨e, he, hmem⟩ := idbFindOldest_spec s hne
    have hdel : (idbDelete s e.key).length + 1 = s.length :=
      idbDelete_length_of_mem s e.key ⟨e, hmem, rfl⟩
    rw [evictOldestBatch, he]
    rw [ih (idbDelete s e.key) (by omega)]
    omega

theorem idbPut_length_le (s : List IdbEntry) (e : IdbEntry) :
    (idbPut s e).length ≤ s.length + 1 := by
  induction s with
  | nil => simp [idbPut]
  | cons x rest ih =>
    by_cases h : x.key = e.key
    · simp [idbPut, h]
    · simp only [idbPut, if_neg h, List.length_cons]
      omega

/-- C3 counterexample: with `maxEntries = 5` the sixth `set` on a store whose
authoritative count already equals the maximum evicts `floor(5 * 0.1) = 0`
entries, so `getStatsAsync().size` ends at 6, above the configured maximum —
refuting the claim for stores with a maximum below 10. -/
theorem idb_small_max_overflows :
    idbSmallMaxRun.getStatsAsync.size = 6 ∧ idbSmallMaxRun.maxEntries = 5 ∧
      ¬ idbSmallMaxRun.getStatsAsync.size ≤ idbSmallMaxRun.maxEntries := by
  refine ⟨?_, rfl, ?_⟩ <;> decide

/-- C3 amended: for a configured maximum `M ≥ 10` (so that the 10% eviction
batch `floor(M * 0.1) = M / 10` is nonempty) and a pre-insert authoritative
count at most `M`, a `set` leaves the authoritative count
(`getStatsAsync().size`) at or below `M`: reaching the maximum triggers the
batch eviction of the `M / 10` oldest entries in last-accessed order before
the upsert adds at most one record. -/
theorem idb_set_capacity_bound (c : IndexedDbCache) (now : Nat) (key : String)
    (content : TextContent) (h10 : 10 ≤ c.maxEntries)
    (hle : c.store.length ≤ c.maxEntries) :
    (c.set now key content).getStatsAsync.size ≤ c.maxEntries := by
  simp only [IndexedDbCache.getStatsAsync, IndexedDbCache.getStats, IndexedDbCache.set]
  by_cases hcap : c.maxEntries ≤ c.store.length
  · have hlen : c.store.length = c.maxEntries := le_antisymm hle hcap
    have hdiv1 : 1 ≤ c.maxEntries / 10 :=
      (Nat.le_div_iff_mul_le (by omega)).mpr (by omega)
    have hdivle : c.maxEntries / 10 ≤ c.store.length :=
      hlen ▸ Nat.div_le_self c.maxEntries 10
    have hevict := evictOldestBatch_length (c.maxEntries / 10) c.store hdivle
    simp only [if_pos hcap]
    have hput := idbPut_length_le (evictOldestBatch c.store (c.maxEntries / 10))
      { key := key, content := content, lastAccessed := now, accessCount := 1,
        createdAt := now, expiresAt := now + c.expirationMs }
    omega
  · simp only [if_neg hcap]
    have hput := idbPut_length_le c.store
      { key := key, content := content, lastAccessed := now, accessCount := 1,
        createdAt := now, expiresAt := now + c.expirationMs }
    omega

/-- C3 amended witness: a store with `maxEntries = 10` filled to its maximum
accepts another `set` and the authoritative count stays at or below 10. -/
theorem idb_set_capacity_bound_witness :
    (((List.range 10).foldl
        (fun c i => c.set (i + 1) (toString i ++ ":1") 0)
        (IndexedDbCache.empty 10 1000)).set 11 "x:1" 0).getStatsAsync.size ≤
      ((List.range 10).foldl
        (fun c i => c.set (i + 1) (toString i ++ ":1") 0)
        (IndexedDbCache.empty 10 1000)).maxEntries :=
  idb_set_capacity_bound _ 11 "x:1" 0 (by decide) (by decide)

/-- C8: a preload call with a JS-falsy source, an empty pages array, or a
page number that is not a positive integer throws one of the fail-fast
validation errors — an InvalidArgument condition — and performs no I/O at
all (empty effect trace: no document acquisition, no cache probe, no
extraction); in the bad-pages case the error names exactly the offending
page values, in source order. -/
theorem preload_validation_fails_fast (src : PreSource) (acquire : Except String Nat)
    (probe : Int → Option TextContent) (extract : Int → Except String TextContent)
    (pages : List JsNum) (skipCached : Bool)
    (hbad : src = PreSource.absent ∨ pages = [] ∨ ∃ p ∈ pages, badPage p = true) :
    ∃ err, preloadTextLayerCache src acquire probe extract pages skipCached =
        (Except.error err, []) ∧
      err.isInvalidArgument = true ∧
      (src ≠ PreSource.absent → pages ≠ [] →
        err = PreloadErr.invalidPageNumbers ((pages.filter badPage).map (fun p => p.val))) := by
  by_cases hsrc : src = PreSource.absent
  · subst hsrc
    exact ⟨PreloadErr.sourceRequired, by simp [preloadTextLayerCache], rfl,
      fun h _ => absurd rfl h⟩
  · by_cases hp : pages = []
    · subst hp
      exact ⟨PreloadErr.emptyPages, by simp [preloadTextLayerCache, hsrc], rfl,
        fun _ h => absurd rfl h⟩
    · have hinv : ∃ p ∈ pages, badPage p = true := by
        rcases hbad with h | h | h
        · exact absurd h hsrc
        · exact absurd h hp
        · exact h
      obtain ⟨p, hmem, hbp⟩ := hinv
      have hfil : pages.filter badPage ≠ [] :=
        List.ne_nil_of_mem (List.mem_filter.mpr ⟨hmem, hbp⟩)
      have hfile : (pages.filter badPage).isEmpty = false := by
        cases hws : pages.filter badPage with
        | nil => exact absurd hws hfil
        | cons a l => rfl
      have hpe : pages.isEmpty = false := by
        cases hws : pages with
        | nil => exact absurd hws hp
        | cons a l => rfl
      refine ⟨PreloadErr.invalidPageNumbers ((pages.filter badPage).map (fun p => p.val)),
        ?_, rfl, fun _ _ => rfl⟩
      simp [preloadTextLayerCache, hsrc, hpe, hfile]

/-- C8 witness: the theorem at a truthy source with pages `[0, 2]` — the
non-positive page 0 is rejected by name, with an empty effect trace. -/
theorem preload_validation_fails_fast_witness :
    ∃ err,
      preloadTextLayerCache PreSource.other (Except.ok 3) (fun _ => none)
          (fun _ => Except.ok 1) [{ isInt := true, val := 0 }, { isInt := true, val := 2 }] true =
        (Except.error err, []) ∧
      err.isInvalidArgument = true ∧
      (PreSource.other ≠ PreSource.absent →
        ([{ isInt := true, val := 0 }, { isInt := true, val := 2 }] : List JsNum) ≠ [] →
        err = PreloadErr.invalidPageNumbers
          ((([{ isInt := true, val := 0 }, { isInt := true, val := 2 }] : List JsNum).filter badPage).map
            (fun p => p.val))) :=
  preload_validation_fails_fast PreSource.other (Except.ok 3) (fun _ => none)
    (fun _ => Except.ok 1) [{ isInt := true, val := 0 }, { isInt := true, val := 2 }] true
    (Or.inr (Or.inr ⟨{ isInt := true, val := 0 }, by decide, by decide⟩))

/-- C7: preloading three valid, distinct pages of a document with nothing
yet cached, where exactly one page's extraction rejects (with message
`errMsg`) and the other two succeed, yields
`{success := false, cached := 2, failed := 1, totalPages := 3}` with exactly
one error entry naming the failed page — the failure does not abort the
sibling pages. -/
theorem preload_one_of_three_fails
    (src : PreSource) (acquire : Except String Nat) (maxPages : Nat)
    (probe : Int → Option TextContent) (extract : Int → Except String TextContent)
    (p1 p2 p3 pf : JsNum) (errMsg : String) (skipCached : Bool)
    (hsrc : src ≠ PreSource.absent)
    (hdoc : (resolveDoc src acquire).1 = Except.ok maxPages)
    (hint1 : p1.isInt = true) (hint2 : p2.isInt = true) (hint3 : p3.isInt = true)
    (hge1 : 1 ≤ p1.val) (hge2 : 1 ≤ p2.val) (hge3 : 1 ≤ p3.val)
    (hle1 : p1.val ≤ (maxPages : Int)) (hle2 : p2.val ≤ (maxPages : Int))
    (hle3 : p3.val ≤ (maxPages : Int))
    (hprobe : ∀ x, probe x = none)
    (hne12 : p1.val ≠ p2.val) (hne13 : p1.val ≠ p3.val) (hne23 : p2.val ≠ p3.val)
    (hfmem : pf = p1 ∨ pf = p2 ∨ pf = p3)
    (hfail : extract pf.val = Except.error errMsg)
    (hok : ∀ q, (q = p1 ∨ q = p2 ∨ q = p3) → q.val ≠ pf.val →
      ∃ cnt, extract q.val = Except.ok cnt) :
    (preloadTextLayerCache src acquire probe extract [p1, p2, p3] skipCached).1 =
      Except.ok { success := false, cached := 2, failed := 1, totalPages := 3,
                  errors := some [(pf.val, errMsg)] } := by
  rcases hrd : resolveDoc src acquire with ⟨r1, r2⟩
  rw [hrd] at hdoc
  simp only at hdoc
  subst hdoc
  have hb1 : badPage p1 = false := by
    simp only [badPage, hint1, Bool.not_true, Bool.false_or, decide_eq_false_iff_not]
    omega
  have hb2 : badPage p2 = false := by
    simp only [badPage, hint2, Bool.not_true, Bool.false_or, decide_eq_false_iff_not]
    omega
  have hb3 : badPage p3 = false := by
    simp only [badPage, hint3, Bool.not_true, Bool.false_or, decide_eq_false_iff_not]
    omega
  have hv1 : decide (p1.val ≤ (maxPages : Int)) = true := decide_eq_true hle1
  have hv2 : decide (p2.val ≤ (maxPages : Int)) = true := decide_eq_true hle2
  have hv3 : decide (p3.val ≤ (maxPages : Int)) = true := decide_eq_true hle3
  rcases hfmem with rfl | rfl | rfl
  · obtain ⟨c2, hx2⟩ := hok p2 (Or.inr (Or.inl rfl)) (Ne.symm hne12)
    obtain ⟨c3, hx3⟩ := hok p3 (Or.inr (Or.inr rfl)) (Ne.symm hne13)
    cases skipCached <;>
      simp [preloadTextLayerCache, hrd, hsrc, hb1, hb2, hb3, hv1, hv2, hv3,
        hprobe, hfail, hx2, hx3, Except.isOk, Except.toBool, List.filter_cons]
  · obtain ⟨c1, hx1⟩ := hok p1 (Or.inl rfl) hne12
    obtain ⟨c3, hx3⟩ := hok p3 (Or.inr (Or.inr rfl)) (Ne.symm hne23)
    cases skipCached <;>
      simp [preloadTextLayerCache, hrd, hsrc, hb1, hb2, hb3, hv1, hv2, hv3,
        hprobe, hfail, hx1, hx3, Except.isOk, Except.toBool, List.filter_cons]
  · obtain ⟨c1, hx1⟩ := hok p1 (Or.inl rfl) hne13
    obtain ⟨c2, hx2⟩ := hok p2 (Or.inr (Or.inl rfl)) hne23
    cases skipCached <;>
      simp [preloadTextLayerCache, hrd, hsrc, hb1, hb2, hb3, hv1, hv2, hv3,
        hprobe, hfail, hx1, hx2, Except.isOk, Except.toBool, List.filter_cons]

/-- C7 witness: a 3-page document, pages 1-3 requested, page 2's extraction
rejecting with `boom`, the others succeeding. -/
theorem preload_one_of_three_fails_witness :
    (preloadTextLayerCache (PreSource.docProxy 3) (Except.ok 3) (fun _ => none)
        (fun p => if p = 2 then Except.error "boom" else Except.ok 42)
        [{ isInt := true, val := 1 }, { isInt := true, val := 2 }, { isInt := true, val := 3 }]
        true).1 =
      Except.ok { success := false, cached := 2, failed := 1, totalPages := 3,
                  errors := some [(2, "boom")] } :=
  preload_one_of_three_fails (PreSource.docProxy 3) (Except.ok 3) 3 (fun _ => none)
    (fun p => if p = 2 then Except.error "boom" else Except.ok 42)
    { isInt := true, val := 1 } { isInt := true, val := 2 } { isInt := true, val := 3 }
    { isInt := true, val := 2 } "boom" true
    (by decide) rfl rfl rfl rfl (by decide) (by decide) (by decide)
    (by decide) (by decide) (by decide) (fun _ => rfl)
    (by decide) (by decide) (by decide)
    (Or.inr (Or.inl rfl)) rfl
    (fun q hq hne => ⟨42, by
      rcases hq with rfl | rfl | rfl
      · rfl
      · exact absurd rfl hne
      · rfl⟩)

/-! ### Lemmas about the JS Map embedding -/

theorem jsMapGet_eq_none_iff (m : VMap) (k : String) :
    jsMapGet m k = none ↔ ∀ p ∈ m, p.1 ≠ k := by
  induction m with
  | nil => simp [jsMapGet]
  | cons p rest ih =>
    by_cases h : p.1 = k
    · simp [jsMapGet, h]
    · simp [jsMapGet, h, ih]

theorem jsMapSet_keys_of_present (m : VMap) (k : String) (v e : CacheEntry)
    (h : jsMapGet m k = some e) :
    (jsMapSet m k v).map Prod.fst = m.map Prod.fst := by
  induction m with
  | nil => simp [jsMapGet] at h
  | cons p rest ih =>
    by_cases hp : p.1 = k
    · simp [jsMapSet, hp]
    · rw [jsMapGet, if_neg hp] at h
      simp [jsMapSet, hp, ih h]

theorem jsMapSet_absent (m : VMap) (k : String) (v : CacheEntry)
    (h : jsMapGet m k = none) : jsMapSet m k v = m ++ [(k, v)] := by
  induction m with
  | nil => simp [jsMapSet]
  | cons p rest ih =>
    rw [jsMapGet] at h
    by_cases hp : p.1 = k
    · rw [if_pos hp] at h
      exact absurd h (by simp)
    · rw [if_neg hp] at h
      simp [jsMapSet, hp, ih h]

theorem jsMapDelete_sublist (m : VMap) (k : String) :
    List.Sublist (jsMapDelete m k) m := by
  induction m with
  | nil => simp [jsMapDelete]
  | cons p rest ih =>
    by_cases hp : p.1 = k
    · rw [jsMapDelete, if_pos hp]
      exact List.sublist_cons_self p rest
    · rw [jsMapDelete, if_neg hp]
      exact ih.cons₂ p

theorem jsMapDelete_length_of_mem (m : VMap) (k : String)
    (h : ∃ p ∈ m, p.1 = k) : (jsMapDelete m k).length + 1 = m.length := by
  induction m with
  | nil => simp at h
  | cons p rest ih =>
    by_cases hp : p.1 = k
    · simp [jsMapDelete, hp]
    · obtain ⟨q, hq, hqk⟩ := h
      have hqr : q ∈ rest := by
        rcases List.mem_cons.mp hq with h1 | h1
        · exact absurd (h1 ▸ hqk) hp
        · exact h1
      simp only [jsMapDelete, if_neg hp, List.length_cons]
      rw [← ih ⟨q, hqr, hqk⟩]

theorem jsMapGet_delete_self (m : VMap) (k : String)
    (hnd : (m.map Prod.fst).Nodup) : jsMapGet (jsMapDelete m k) k = none := by
  induction m with
  | nil => simp [jsMapDelete, jsMapGet]
  | cons p rest ih =>
    rw [List.map_cons, List.nodup_cons] at hnd
    by_cases hp : p.1 = k
    · rw [jsMapDelete, if_pos hp]
      rw [jsMapGet_eq_none_iff]
      intro q hq hqk
      apply hnd.1
      have hm : q.1 ∈ List.map Prod.fst rest := List.mem_map_of_mem Prod.fst hq
      rw [hp, ← hqk]
      exact hm
    · rw [jsMapDelete, if_neg hp, jsMapGet, if_neg hp]
      exact ih hnd.2

theorem jsMapGet_delete_ne (m : VMap) (k k2 : String) (h : k2 ≠ k) :
    jsMapGet (jsMapDelete m k) k2 = jsMapGet m k2 := by
  induction m with
  | nil => simp [jsMapDelete]
  | cons p rest ih =>
    by_cases hp : p.1 = k
    · have hp2 : ¬ p.1 = k2 := fun hc => h (hc ▸ hp)
      rw [jsMapDelete, if_pos hp, jsMapGet, if_neg hp2]
    · by_cases hq : p.1 = k2
      · rw [jsMapDelete, if_neg hp, jsMapGet, if_pos hq, jsMapGet, if_pos hq]
      · rw [jsMapDelete, if_neg hp, jsMapGet, if_neg hq, jsMapGet, if_neg hq]
        exact ih

theorem jsMapGet_append_right (m1 m2 : VMap) (k : String)
    (h : jsMapGet m1 k = none) :
    jsMapGet (m1 ++ m2) k = jsMapGet m2 k := by
  induction m1 with
  | nil => simp
  | cons p rest ih =>
    rw [jsMapGet] at h
    by_cases hp : p.1 = k
    · rw [if_pos hp] at h
      exact absurd h (by simp)
    · rw [if_neg hp] at h
      rw [List.cons_append, jsMapGet, if_neg hp]
      exact ih h

theorem jsMapGet_append_left (m1 m2 : VMap) (k : String) (e : CacheEntry)
    (h : jsMapGet m1 k = some e) :
    jsMapGet (m1 ++ m2) k = some e := by
  induction m1 with
  | nil => simp [jsMapGet] at h
  | cons p rest ih =>
    rw [jsMapGet] at h
    by_cases hp : p.1 = k
    · rw [if_pos hp] at h
      rw [List.cons_append, jsMapGet, if_pos hp]
      exact h
    · rw [if_neg hp] at h
      rw [List.cons_append, jsMapGet, if_neg hp]
      exact ih h

theorem jsMapGet_of_mem_nodup (m : VMap) (k : String) (e : CacheEntry)
    (hnd : (m.map Prod.fst).Nodup) (hmem : (k, e) ∈ m) :
    jsMapGet m k = some e := by
  induction m with
  | nil => simp at hmem
  | cons p rest ih =>
    rw [List.map_cons, List.nodup_cons] at hnd
    rcases List.mem_cons.mp hmem with h1 | h1
    · rw [← h1, jsMapGet, if_pos rfl]
    · have hp : ¬ p.1 = k := by
        intro hc
        exact hnd.1 (hc ▸ List.mem_map_of_mem Prod.fst h1)
      rw [jsMapGet, if_neg hp]
      exact ih hnd.2 h1

theorem mem_jsMapSet (m : VMap) (k : String) (v : CacheEntry) (q : String × CacheEntry)
    (hq : q ∈ jsMapSet m k v) : q = (k, v) ∨ q ∈ m := by
  induction m with
  | nil => simpa [jsMapSet] using hq
  | cons p rest ih =>
    by_cases hp : p.1 = k
    · rw [jsMapSet, if_pos hp] at hq
      rcases List.mem_cons.mp hq with h1 | h1
      · exact Or.inl h1
      · exact Or.inr (List.mem_cons_of_mem p h1)
    · rw [jsMapSet, if_neg hp] at hq
      rcases List.mem_cons.mp hq with h1 | h1
      · exact Or.inr (h1 ▸ List.mem_cons_self p rest)
      · rcases ih h1 with h2 | h2
        · exact Or.inl h2
        · exact Or.inr (List.mem_cons_of_mem p h2)

theorem goodKeys_sublist (m1 m2 : VMap) (hs : List.Sublist m1 m2)
    (hg : goodKeys m2) : goodKeys m1 :=
  ⟨hg.1.sublist (hs.map Prod.fst), fun p hp => hg.2 p (hs.subset hp)⟩

theorem goodKeys_jsMapSet (m : VMap) (k : String) (v : CacheEntry)
    (hg : goodKeys m) (hk : k ≠ "") : goodKeys (jsMapSet m k v) := by
  refine ⟨?_, ?_⟩
  · cases hget : jsMapGet m k with
    | some e => rw [jsMapSet_keys_of_present m k v e hget]; exact hg.1
    | none =>
      rw [jsMapSet_absent m k v hget, List.map_append]
      rw [List.nodup_append]
      refine ⟨hg.1, List.nodup_singleton k, ?_⟩
      intro a ha hb
      simp only [List.map_cons, List.map_nil, List.mem_singleton] at hb
      obtain ⟨p, hp, hpa⟩ := List.mem_map.mp ha
      exact ((jsMapGet_eq_none_iff m k).mp hget p hp) (hpa.trans hb)
  · intro p hp
    rcases mem_jsMapSet m k v p hp with h1 | h1
    · rw [h1]; exact hk
    · exact hg.2 p h1

theorem jsMapSet_length_of_present (m : VMap) (k : String) (v e : CacheEntry)
    (h : jsMapGet m k = some e) : (jsMapSet m k v).length = m.length := by
  have hkeys := jsMapSet_keys_of_present m k v e h
  have h1 : ((jsMapSet m k v).map Prod.fst).length = (m.map Prod.fst).length := by
    rw [hkeys]
  simpa using h1

/-! ### Lemmas about the LRU scan -/

theorem oldest_foldl_spec (m : VMap) : ∀ k0 t0 : _,
    ∃ k t, m.foldl oldestStep (some (k0, t0)) = some (k, t) ∧ t ≤ t0 ∧
      (∀ p ∈ m, t ≤ p.2.lastAccessed) ∧
      ((k = k0 ∧ t = t0) ∨ ∃ p ∈ m, p.1 = k ∧ p.2.lastAccessed = t) := by
  induction m with
  | nil => exact fun k0 t0 => ⟨k0, t0, rfl, le_refl t0, by simp, Or.inl ⟨rfl, rfl⟩⟩
  | cons p rest ih =>
    intro k0 t0
    by_cases hlt : p.2.lastAccessed < t0
    · obtain ⟨k, t, heq, hle, hmin, hmem⟩ := ih p.1 p.2.lastAccessed
      refine ⟨k, t, ?_, by omega, ?_, ?_⟩
      · simpa [List.foldl_cons, oldestStep, hlt] using heq
      · intro q hq
        rcases List.mem_cons.mp hq with h1 | h1
        · rw [h1]; exact hle
        · exact hmin q h1
      · rcases hmem with ⟨hk, ht⟩ | ⟨q, hq, hqk, hqt⟩
        · exact Or.inr ⟨p, List.mem_cons_self p rest, hk.symm, ht.symm⟩
        · exact Or.inr ⟨q, List.mem_cons_of_mem p hq, hqk, hqt⟩
    · obtain ⟨k, t, heq, hle, hmin, hmem⟩ := ih k0 t0
      refine ⟨k, t, ?_, hle, ?_, ?_⟩
      · simpa [List.foldl_cons, oldestStep, hlt] using heq
      · intro q hq
        rcases List.mem_cons.mp hq with h1 | h1
        · rw [h1]; omega
        · exact hmin q h1
      · rcases hmem with h1 | ⟨q, hq, hqk, hqt⟩
        · exact Or.inl h1
        · exact Or.inr ⟨q, List.mem_cons_of_mem p hq, hqk, hqt⟩

theorem findOldest_spec (m : VMap) (hne : m ≠ []) :
    ∃ k t, findOldest m = some (k, t) ∧
      (∃ p ∈ m, p.1 = k ∧ p.2.lastAccessed = t) ∧
      ∀ q ∈ m, t ≤ q.2.lastAccessed := by
  match m, hne with
  | p :: rest, _ =>
    obtain ⟨k, t, heq, hle, hmin, hmem⟩ := oldest_foldl_spec rest p.1 p.2.lastAccessed
    refine ⟨k, t, ?_, ?_, ?_⟩
    · simpa [findOldest, List.foldl_cons, oldestStep] using heq
    · rcases hmem with ⟨hk, ht⟩ | ⟨q, hq, hqk, hqt⟩
      · exact ⟨p, List.mem_cons_self p rest, hk.symm, ht.symm⟩
      · exact ⟨q, List.mem_cons_of_mem p hq, hqk, hqt⟩
    · intro q hq
      rcases List.mem_cons.mp hq with h1 | h1
      · rw [h1]; exact hle
      · exact hmin q h1

theorem evictLRU_spec (m : VMap) (hne : m ≠ []) (hgood : ∀ p ∈ m, p.1 ≠ "") :
    ∃ p ∈ m, (∀ q ∈ m, p.2.lastAccessed ≤ q.2.lastAccessed) ∧
      evictLRU m = jsMapDelete m p.1 := by
  obtain ⟨k, t, heq, ⟨p, hp, hpk, hpt⟩, hmin⟩ := findOldest_spec m hne
  refine ⟨p, hp, ?_, ?_⟩
  · intro q hq
    have := hmin q hq
    omega
  · have hk : ¬ k = "" := fun hc => hgood p hp (hpk.trans hc)
    rw [evictLRU, heq]
    show (if k = "" then m else jsMapDelete m k) = jsMapDelete m p.1
    rw [if_neg hk, hpk]

theorem evictLRU_sublist (m : VMap) : List.Sublist (evictLRU m) m := by
  rw [evictLRU]
  rcases hfo : findOldest m with _ | ⟨k, t⟩
  · exact List.Sublist.refl m
  · show List.Sublist (if k = "" then m else jsMapDelete m k) m
    by_cases h : k = ""
    · rw [if_pos h]
    · rw [if_neg h]
      exact jsMapDelete_sublist m k

theorem evictLRU_length (m : VMap) (hne : m ≠ []) (hgood : ∀ p ∈ m, p.1 ≠ "") :
    (evictLRU m).length + 1 = m.length := by
  obtain ⟨p, hp, _, heq⟩ := evictLRU_spec m hne hgood
  rw [heq]
  exact jsMapDelete_length_of_mem m p.1 ⟨p, hp, rfl⟩

/-! ### The volatile capacity invariant -/

theorem applyVOp_inv (N : Nat) (hN : 1 ≤ N) (c : TextLayerCache) (h : VInv N c)
    (op : VOp) (hop : op.keyOk = true) : VInv N (applyVOp c op) := by
  obtain ⟨hg, hmax, hlen⟩ := h
  cases op with
  | clear =>
    exact ⟨⟨List.nodup_nil, by simp [applyVOp, TextLayerCache.clear]⟩, hmax,
      by simp [applyVOp, TextLayerCache.clear]⟩
  | get now k =>
    have hk : k ≠ "" := by
      simp only [VOp.keyOk, Bool.not_eq_true', beq_eq_false_iff_ne, ne_eq] at hop
      exact hop
    cases hget : jsMapGet c.cache k with
    | none =>
      simp only [applyVOp, TextLayerCache.get, hget]
      exact ⟨hg, hmax, hlen⟩
    | some e =>
      simp only [applyVOp, TextLayerCache.get, hget]
      refine ⟨goodKeys_jsMapSet _ _ _ hg hk, hmax, ?_⟩
      show (jsMapSet c.cache k _).length ≤ N
      rw [jsMapSet_length_of_present c.cache k _ e hget]
      exact hlen
  | set now k v =>
    have hk : k ≠ "" := by
      simp only [VOp.keyOk, Bool.not_eq_true', beq_eq_false_iff_ne, ne_eq] at hop
      exact hop
    show VInv N (c.set now k v)
    by_cases hget : jsMapGet c.cache k = none
    · by_cases hcap : c.maxSize ≤ c.cache.length
      · have hcond : c.maxSize ≤ c.cache.length ∧ jsMapGet c.cache k = none :=
          ⟨hcap, hget⟩
        have hnil : c.cache ≠ [] := by
          have h1 : 1 ≤ c.cache.length := le_trans (hmax ▸ hN) hcap
          intro hc
          rw [hc] at h1
          simp at h1
        have hglen := evictLRU_length c.cache hnil hg.2
        have hgsub := evictLRU_sublist c.cache
        have hg2 : goodKeys (evictLRU c.cache) := goodKeys_sublist _ _ hgsub hg
        have hget2 : jsMapGet (evictLRU c.cache) k = none := by
          rw [jsMapGet_eq_none_iff]
          intro p hp
          exact (jsMapGet_eq_none_iff c.cache k).mp hget p (hgsub.subset hp)
        simp only [TextLayerCache.set, if_pos hcond]
        refine ⟨goodKeys_jsMapSet _ _ _ hg2 hk, hmax, ?_⟩
        show (jsMapSet (evictLRU c.cache) k _).length ≤ N
        rw [jsMapSet_absent _ _ _ hget2]
        rw [List.length_append]
        simp only [List.length_singleton]
        omega
      · have hcond : ¬ (c.maxSize ≤ c.cache.length ∧ jsMapGet c.cache k = none) :=
          fun hc => hcap hc.1
        simp only [TextLayerCache.set, if_neg hcond]
        refine ⟨goodKeys_jsMapSet _ _ _ hg hk, hmax, ?_⟩
        show (jsMapSet c.cache k _).length ≤ N
        rw [jsMapSet_absent _ _ _ hget]
        rw [List.length_append]
        simp only [List.length_singleton]
        omega
    · have hcond : ¬ (c.maxSize ≤ c.cache.length ∧ jsMapGet c.cache k = none) :=
        fun hc => hget hc.2
      obtain ⟨e, he⟩ : ∃ e, jsMapGet c.cache k = some e := by
        cases h2 : jsMapGet c.cache k with
        | none => exact absurd h2 hget
        | some e => exact ⟨e, rfl⟩
      simp only [TextLayerCache.set, if_neg hcond]
      refine ⟨goodKeys_jsMapSet _ _ _ hg hk, hmax, ?_⟩
      show (jsMapSet c.cache k _).length ≤ N
      rw [jsMapSet_length_of_present c.cache k _ e he]
      exact hlen

theorem runVOps_inv (N : Nat) (hN : 1 ≤ N) (ops : List VOp) :
    ∀ c : TextLayerCache, VInv N c → (∀ op ∈ ops, op.keyOk = true) →
      VInv N (runVOps c ops) := by
  induction ops with
  | nil => exact fun c h _ => h
  | cons op ops ih =>
    intro c h hops
    exact ih (applyVOp c op)
      (applyVOp_inv N hN c h op (hops op (List.mem_cons_self op ops)))
      (fun o ho => hops o (List.mem_cons_of_mem op ho))

/-- C4 counterexample: a volatile store constructed with `maxSize = 0` grows
to one entry on the first `set` — `evictLRU` finds nothing to evict in the
empty map, and the insertion proceeds regardless — so the entry count
exceeds the configured maximum and no entry was evicted before inserting,
refuting the claim at `N = 0`. -/
theorem volatile_zero_max_overflow :
    ((TextLayerCache.empty 0).set 5 "k:1" 7).cache.length = 1 ∧
      ¬ ((TextLayerCache.empty 0).set 5 "k:1" 7).cache.length ≤
          ((TextLayerCache.empty 0).set 5 "k:1" 7).maxSize := by
  refine ⟨?_, ?_⟩ <;> decide

/-- C4 amended: for a volatile store configured with maximum `N ≥ 1` and
operated through derived cache keys (which are nonempty, `VOp.keyOk`), the
entry count after every sequence of get/set/clear operations — hence after
each completed operation — never exceeds `N`; and a `set` for a fresh key
arriving when the size is at or above `N` first deletes exactly one entry
holding a minimal `lastAccessed` timestamp and only then inserts. -/
theorem volatile_size_never_exceeds (N : Nat) (hN : 1 ≤ N) :
    (∀ ops : List VOp, (∀ op ∈ ops, op.keyOk = true) →
      (runVOps (TextLayerCache.empty N) ops).cache.length ≤ N) ∧
    (∀ (c : TextLayerCache) (now : Nat) (key : String) (content : TextContent),
      goodKeys c.cache → c.maxSize = N → N ≤ c.cache.length →
      jsMapGet c.cache key = none → key ≠ "" →
      ∃ p ∈ c.cache,
        (∀ q ∈ c.cache, p.2.lastAccessed ≤ q.2.lastAccessed) ∧
        (c.set now key content).cache =
          jsMapSet (jsMapDelete c.cache p.1) key
            { content := content, lastAccessed := now, accessCount := 1 }) := by
  constructor
  · intro ops hops
    have hinv : VInv N (TextLayerCache.empty N) :=
      ⟨⟨List.nodup_nil, by simp [TextLayerCache.empty]⟩, rfl,
        by simp [TextLayerCache.empty]⟩
    exact (runVOps_inv N hN ops (TextLayerCache.empty N) hinv hops).2.2
  · intro c now key content hg hmax hcap hget hk
    have hnil : c.cache ≠ [] := by
      have h1 : 1 ≤ c.cache.length := le_trans hN hcap
      intro hc
      rw [hc] at h1
      simp at h1
    obtain ⟨p, hp, hmin, heq⟩ := evictLRU_spec c.cache hnil hg.2
    refine ⟨p, hp, hmin, ?_⟩
    have hcond : c.maxSize ≤ c.cache.length ∧ jsMapGet c.cache key = none :=
      ⟨hmax ▸ hcap, hget⟩
    simp only [TextLayerCache.set, if_pos hcond]
    rw [heq]

/-- C4 amended witness: both parts of the theorem at `N = 1` — a three-
operation run stays within one entry, and a fresh `set` against a full
one-entry store evicts that oldest entry before inserting. -/
theorem volatile_size_never_exceeds_witness :
    (runVOps (TextLayerCache.empty 1)
        [VOp.set 1 "a:1" 5, VOp.set 2 "b:1" 6, VOp.get 3 "b:1"]).cache.length ≤ 1 ∧
    ∃ p ∈ ([("a:1", { content := 5, lastAccessed := 1, accessCount := 1 })] : VMap),
      (∀ q ∈ ([("a:1", { content := 5, lastAccessed := 1, accessCount := 1 })] : VMap),
        p.2.lastAccessed ≤ q.2.lastAccessed) ∧
      (({ cache := [("a:1", { content := 5, lastAccessed := 1, accessCount := 1 })],
          maxSize := 1, hitCount := 0, missCount := 0 } : TextLayerCache).set 2 "b:1" 6).cache =
        jsMapSet
          (jsMapDelete
            [("a:1", { content := 5, lastAccessed := 1, accessCount := 1 })] p.1)
          "b:1" { content := 6, lastAccessed := 2, accessCount := 1 } :=
  ⟨(volatile_size_never_exceeds 1 (by decide)).1
      [VOp.set 1 "a:1" 5, VOp.set 2 "b:1" 6, VOp.get 3 "b:1"] (by decide),
   (volatile_size_never_exceeds 1 (by decide)).2
      { cache := [("a:1", { content := 5, lastAccessed := 1, accessCount := 1 })],
        maxSize := 1, hitCount := 0, missCount := 0 } 2 "b:1" 6
      ⟨by decide, by decide⟩ rfl (by decide) (by decide) (by decide)⟩

/-! ### Characterising a run of fresh inserts -/

theorem setRun_fresh (l : List (String × Nat × TextContent)) :
    ∀ c : TextLayerCache,
      (∀ x ∈ l, jsMapGet c.cache x.1 = none) →
      (l.map Prod.fst).Nodup →
      c.cache.length + l.length ≤ c.maxSize →
      (setRun c l).cache = c.cache ++ l.map toVEntry ∧
      (setRun c l).maxSize = c.maxSize := by
  induction l with
  | nil => exact fun c _ _ _ => ⟨by simp [setRun], rfl⟩
  | cons x l ih =>
    intro c habs hnd hlen
    have hx : jsMapGet c.cache x.1 = none := habs x (List.mem_cons_self x l)
    have hlt : c.cache.length < c.maxSize := by
      rw [List.length_cons] at hlen
      omega
    have hcond : ¬ (c.maxSize ≤ c.cache.length ∧ jsMapGet c.cache x.1 = none) :=
      fun hc => absurd hc.1 (by omega)
    have hset : (c.set x.2.1 x.1 x.2.2).cache = c.cache ++ [toVEntry x] := by
      simp only [TextLayerCache.set, if_neg hcond]
      exact jsMapSet_absent _ _ _ hx
    rw [List.map_cons, List.nodup_cons] at hnd
    have hrest := ih (c.set x.2.1 x.1 x.2.2)
      (by
        intro y hy
        have h1 : jsMapGet c.cache y.1 = none := habs y (List.mem_cons_of_mem x hy)
        have h2 : ¬ x.1 = y.1 := fun hc =>
          hnd.1 (hc ▸ List.mem_map_of_mem Prod.fst hy)
        rw [hset, jsMapGet_append_right _ _ _ h1]
        show (if (toVEntry x).1 = y.1 then some (toVEntry x).2 else jsMapGet [] y.1) = none
        have h2b : ¬ (toVEntry x).1 = y.1 := h2
        rw [if_neg h2b]
        rfl)
      hnd.2
      (by
        show (c.set x.2.1 x.1 x.2.2).cache.length + l.length ≤ c.maxSize
        rw [hset, List.length_append, List.length_singleton]
        rw [List.length_cons] at hlen
        omega)
    refine ⟨?_, hrest.2⟩
    show (setRun (c.set x.2.1 x.1 x.2.2) l).cache = _
    rw [hrest.1, hset, List.map_cons, List.append_assoc, List.singleton_append]

/-- C5 counterexample: with `maxSize = 0`, one `set` of a single fresh key
leaves that key present — no entry is absent at all, while the claim (read
at `N = 0`, a single set call) requires exactly one of the keys to be
absent. -/
theorem volatile_lru_zero_max_keeps_key :
    (jsMapGet (setRun (TextLayerCache.empty 0) [("a:1", 3, 9)]).cache "a:1").isSome = true ∧
    ¬ ∃ x ∈ ([("a:1", 3, 9)] : List (String × Nat × TextContent)),
        jsMapGet (setRun (TextLayerCache.empty 0) [("a:1", 3, 9)]).cache x.1 = none := by
  refine ⟨?_, ?_⟩ <;> decide

/-- C5 amended: for a volatile store configured with `N ≥ 1`, after `N + 1`
sets of pairwise distinct (derived, hence nonempty) keys, exactly one of the
`N + 1` keys is absent: some key inserted among the first `N` whose
last-accessed timestamp (its insertion time — nothing touched the entries in
between) was minimal at the moment of the `(N+1)`-th insert; every other key
is present. -/
theorem volatile_lru_evicts_oldest (N : Nat) (hN : 1 ≤ N)
    (kts : List (String × Nat × TextContent))
    (hlen : kts.length = N + 1)
    (hnodup : (kts.map Prod.fst).Nodup)
    (hne : ∀ x ∈ kts, x.1 ≠ "") :
    ∃ x ∈ kts.take N,
      (∀ y ∈ kts.take N, x.2.1 ≤ y.2.1) ∧
      jsMapGet (setRun (TextLayerCache.empty N) kts).cache x.1 = none ∧
      ∀ y ∈ kts, y.1 ≠ x.1 →
        (jsMapGet (setRun (TextLayerCache.empty N) kts).cache y.1).isSome = true := by
  have hdrop : (kts.drop N).length = 1 := by
    rw [List.length_drop, hlen]
    omega
  obtain ⟨z, hz⟩ := List.length_eq_one.mp hdrop
  have hsplit : kts.take N ++ [z] = kts := by
    rw [← hz]
    exact List.take_append_drop N kts
  have hfrontlen : (kts.take N).length = N := by
    rw [List.length_take, hlen]
    omega
  have hkeys2 : ((kts.take N).map Prod.fst ++ [z.1]).Nodup := by
    have h1 : ((kts.take N ++ [z]).map Prod.fst).Nodup := by
      rw [hsplit]
      exact hnodup
    simpa [List.map_append] using h1
  rcases List.nodup_append.mp hkeys2 with ⟨hfnd, _, hdisj⟩
  have hznot : z.1 ∉ (kts.take N).map Prod.fst :=
    fun hmem => hdisj hmem (List.mem_singleton.mpr rfl)
  obtain ⟨hc0cacheA, hc0max⟩ :=
    setRun_fresh (kts.take N) (TextLayerCache.empty N)
      (fun _ _ => rfl) hfnd
      (by simp [TextLayerCache.empty, hfrontlen])
  have hc0cache : (setRun (TextLayerCache.empty N) (kts.take N)).cache =
      (kts.take N).map toVEntry := by
    rw [hc0cacheA]
    rfl
  have hc0len : (setRun (TextLayerCache.empty N) (kts.take N)).cache.length = N := by
    rw [hc0cache, List.length_map, hfrontlen]
  have hc0keys : (setRun (TextLayerCache.empty N) (kts.take N)).cache.map Prod.fst =
      (kts.take N).map Prod.fst := by
    rw [hc0cache, List.map_map]
    rfl
  have hgood0 : goodKeys (setRun (TextLayerCache.empty N) (kts.take N)).cache := by
    refine ⟨by rw [hc0keys]; exact hfnd, ?_⟩
    intro p hp
    rw [hc0cache] at hp
    obtain ⟨x, hx, hxe⟩ := List.mem_map.mp hp
    rw [← hxe]
    exact hne x (List.take_subset N kts hx)
  have habsz : jsMapGet (setRun (TextLayerCache.empty N) (kts.take N)).cache z.1 = none := by
    rw [jsMapGet_eq_none_iff]
    intro p hp hpz
    exact hznot (hpz ▸ (hc0keys ▸ List.mem_map_of_mem Prod.fst hp))
  have hnil0 : (setRun (TextLayerCache.empty N) (kts.take N)).cache ≠ [] := by
    intro hc
    rw [hc] at hc0len
    simp at hc0len
    omega
  obtain ⟨pmin, hpmem, hpminle, hevict⟩ :=
    evictLRU_spec (setRun (TextLayerCache.empty N) (kts.take N)).cache hnil0 hgood0.2
  have hrun : setRun (TextLayerCache.empty N) kts =
      (setRun (TextLayerCache.empty N) (kts.take N)).set z.2.1 z.1 z.2.2 := by
    conv_lhs => rw [← hsplit]
    simp [setRun, List.foldl_append]
  have hcond : (setRun (TextLayerCache.empty N) (kts.take N)).maxSize ≤
      (setRun (TextLayerCache.empty N) (kts.take N)).cache.length ∧
      jsMapGet (setRun (TextLayerCache.empty N) (kts.take N)).cache z.1 = none := by
    rw [hc0max, hc0len]
    exact ⟨le_refl N, habsz⟩
  have habs2 : jsMapGet
      (jsMapDelete (setRun (TextLayerCache.empty N) (kts.take N)).cache pmin.1) z.1 = none := by
    rw [jsMapGet_eq_none_iff]
    intro q hq
    exact (jsMapGet_eq_none_iff _ _).mp habsz q ((jsMapDelete_sublist _ _).subset hq)
  have hfinal : (setRun (TextLayerCache.empty N) kts).cache =
      jsMapDelete (setRun (TextLayerCache.empty N) (kts.take N)).cache pmin.1 ++
        [toVEntry z] := by
    rw [hrun]
    simp only [TextLayerCache.set, if_pos hcond]
    rw [hevict, jsMapSet_absent _ _ _ habs2]
    rfl
  obtain ⟨x, hxmem, hxeq⟩ : ∃ x ∈ kts.take N, toVEntry x = pmin := by
    rw [hc0cache] at hpmem
    exact List.mem_map.mp hpmem
  have hx1 : pmin.1 = x.1 := by
    rw [← hxeq]
    rfl
  have hxt : pmin.2.lastAccessed = x.2.1 := by
    rw [← hxeq]
    rfl
  refine ⟨x, hxmem, ?_, ?_, ?_⟩
  · intro y hy
    have h1 := hpminle (toVEntry y) (by rw [hc0cache]; exact List.mem_map_of_mem toVEntry hy)
    rw [hxt] at h1
    exact h1
  · rw [hfinal, ← hx1]
    rw [jsMapGet_append_right _ _ _ (jsMapGet_delete_self _ _ hgood0.1)]
    have hz1 : ¬ z.1 = pmin.1 := by
      rw [hx1]
      intro hc
      exact hznot (hc ▸ List.mem_map_of_mem Prod.fst hxmem)
    show (if (toVEntry z).1 = pmin.1 then some (toVEntry z).2 else jsMapGet [] pmin.1) = none
    have hz1b : ¬ (toVEntry z).1 = pmin.1 := hz1
    rw [if_neg hz1b]
    rfl
  · intro y hy hyx
    rw [hfinal]
    rcases List.mem_append.mp (by rw [hsplit]; exact hy :
        y ∈ kts.take N ++ [z]) with hyf | hyz
    · have hysome : jsMapGet (setRun (TextLayerCache.empty N) (kts.take N)).cache y.1 =
          some (toVEntry y).2 := by
        apply jsMapGet_of_mem_nodup _ _ _ (by rw [hc0keys]; exact hfnd)
        have h1 := List.mem_map_of_mem toVEntry hyf
        rw [hc0cache]
        exact h1
      have hyp : ¬ y.1 = pmin.1 := by
        rw [hx1]
        exact hyx
      rw [jsMapGet_append_left _ _ _ _ (by rw [jsMapGet_delete_ne _ _ _ hyp]; exact hysome)]
      rfl
    · have hyz2 : y = z := List.mem_singleton.mp hyz
      rw [hyz2]
      rw [jsMapGet_append_right _ _ _ habs2]
      show (jsMapGet [toVEntry z] z.1).isSome = true
      show (if (toVEntry z).1 = z.1 then some (toVEntry z).2 else jsMapGet [] z.1).isSome = true
      have hzz : (toVEntry z).1 = z.1 := rfl
      rw [if_pos hzz]
      rfl

/-- C5 amended witness: `N = 1`, keys `a:1` then `b:1` — the second insert
evicts `a:1`, the key with the minimal last-accessed timestamp, and `b:1`
remains. -/
theorem volatile_lru_evicts_oldest_witness :
    ∃ x ∈ ([("a:1", 10, 1), ("b:1", 20, 2)] :
        List (String × Nat × TextContent)).take 1,
      (∀ y ∈ ([("a:1", 10, 1), ("b:1", 20, 2)] :
          List (String × Nat × TextContent)).take 1, x.2.1 ≤ y.2.1) ∧
      jsMapGet (setRun (TextLayerCache.empty 1)
        [("a:1", 10, 1), ("b:1", 20, 2)]).cache x.1 = none ∧
      ∀ y ∈ ([("a:1", 10, 1), ("b:1", 20, 2)] :
          List (String × Nat × TextContent)), y.1 ≠ x.1 →
        (jsMapGet (setRun (TextLayerCache.empty 1)
          [("a:1", 10, 1), ("b:1", 20, 2)]).cache y.1).isSome = true :=
  volatile_lru_evicts_oldest 1 (by decide) [("a:1", 10, 1), ("b:1", 20, 2)]
    (by decide) (by decide) (by decide)

end VuePdfEmbed
